import Mathlib

/-!
Shallow embedding of `src/ct_moniteur/binary_reader.py` (class `BinaryReader`)
and verification of the specified properties of the cursor reader.

Python `bytes` values are modelled as `List Nat` (each element `< 256` where
that matters), Python `int` as `Int`, and a method that may raise as a pure
function returning the result of the call (`Except PyError _`) together with
the state of the object after the call — the post-state matters because the
Python code can mutate `self._offset` before a later statement raises.
-/

set_option autoImplicit false

deriving instance DecidableEq for Except

/-- Source `class DataType(Enum)`: types that can be read. -/
inductive DataType where
  | UINT
  | INT
  | BOOL
  | BYTES
deriving DecidableEq, Repr

/-- Source `class Endianness(Enum)`: byte order for multi-byte values. -/
inductive Endianness where
  | BIG
  | LITTLE
deriving DecidableEq, Repr

/-- The exceptions the source can raise, one constructor per distinct
`raise` site (each `ValueError` message), plus the `IndexError` that
`data_view[0]` raises on an empty view. -/
inductive PyError where
  | sizeMustBePositive (size : Int)
  | cannotRead (size offset total : Int)
  | boolMustBe1Byte (size : Int)
  | cannotSkip (count offset total : Int)
  | invalidSeekOffset (offset total : Int)
  | cannotPeek (size offset total : Int)
  | indexError
deriving DecidableEq, Repr

/-- Return value of `BinaryReader.read`: `int` for UINT/INT, `bool` for
BOOL, `bytes` for BYTES. -/
inductive Value where
  | int (i : Int)
  | bool (b : Bool)
  | bytes (bs : List Nat)
deriving DecidableEq, Repr

/-- One bound of a Python slice `l[a:b]`: a negative index counts from the
end, and both ends are clamped into `[0, len l]`. -/
def pySliceIdx (len : Nat) (i : Int) : Nat :=
  if i < 0 then (max ((len : Int) + i) 0).toNat else (min i (len : Int)).toNat

/-- Python slicing `l[a:b]` with integer bounds (the semantics of
`memoryview.__getitem__` with a slice). -/
def pySlice (l : List Nat) (a b : Int) : List Nat :=
  (l.take (pySliceIdx l.length b)).drop (pySliceIdx l.length a)

/-- Embedding of `int.from_bytes(bs, byteorder, signed=False)`: big-endian folds the
bytes most-significant first; little-endian folds them in reverse. -/
def fromBytesUnsigned (endianness : Endianness) (bs : List Nat) : Nat :=
  match endianness with
  | .BIG => bs.foldl (fun acc b => acc * 256 + b) 0
  | .LITTLE => bs.reverse.foldl (fun acc b => acc * 256 + b) 0

/-- The byte holding the sign bit: the first byte in big-endian order,
the last in little-endian order (`0` for an empty view). -/
def signByte (endianness : Endianness) (bs : List Nat) : Nat :=
  match endianness with
  | .BIG => bs.headD 0
  | .LITTLE => bs.getLastD 0

/-- Embedding of `int.from_bytes(bs, byteorder, signed=True)`: the unsigned value,
reduced by `2 ^ (8 * n)` when the most-significant bit of the
most-significant byte is set. -/
def fromBytesSigned (endianness : Endianness) (bs : List Nat) : Int :=
  if 128 ≤ signByte endianness bs then
    (fromBytesUnsigned endianness bs : Int) - 2 ^ (8 * bs.length)
  else
    (fromBytesUnsigned endianness bs : Int)

/-- The state of a `BinaryReader` object: the borrowed buffer, the current
offset (a Python `int`, so possibly negative), and the fixed byte order. -/
structure BinaryReader where
  data : List Nat
  offset : Int
  endianness : Endianness
deriving DecidableEq, Repr

namespace BinaryReader

/-- Constructor `BinaryReader.__init__`: offset starts at 0. -/
def new (data : List Nat) (endianness : Endianness) : BinaryReader :=
  { data := data, offset := 0, endianness := endianness }

/-- Property `remaining`: `len(self._data) - self._offset`. -/
def remaining (r : BinaryReader) : Int :=
  (r.data.length : Int) - r.offset

/-- Property `size`: `len(self._data)`. -/
def size (r : BinaryReader) : Nat :=
  r.data.length

/-- Query `has_bytes(count)`: `self._offset + count <= len(self._data)`. -/
def has_bytes (r : BinaryReader) (count : Int) : Bool :=
  r.offset + count ≤ (r.data.length : Int)

/-- Method `read(data_type, size)`, translated statement by statement.  Note the
source slices and advances `self._offset` before the `BOOL` branch checks
`size != 1`, so those failures leave the offset already advanced. -/
def read (r : BinaryReader) (data_type : DataType) (size : Int) :
    Except PyError Value × BinaryReader :=
  if size ≤ 0 then
    (.error (.sizeMustBePositive size), r)
  else if ¬ r.has_bytes size then
    (.error (.cannotRead size r.offset r.data.length), r)
  else
    let data_view := pySlice r.data r.offset (r.offset + size)
    let r' := { r with offset := r.offset + size }
    match data_type with
    | .BYTES => (.ok (.bytes data_view), r')
    | .BOOL =>
      if size ≠ 1 then (.error (.boolMustBe1Byte size), r')
      else
        match data_view with
        | [] => (.error .indexError, r')
        | b :: _ => (.ok (.bool (b != 0)), r')
    | .UINT => (.ok (.int (fromBytesUnsigned r.endianness data_view)), r')
    | .INT => (.ok (.int (fromBytesSigned r.endianness data_view)), r')

/-- Method `skip(count)`: bounds check, then `self._offset += count`. -/
def skip (r : BinaryReader) (count : Int) :
    Except PyError Unit × BinaryReader :=
  if ¬ r.has_bytes count then
    (.error (.cannotSkip count r.offset r.data.length), r)
  else
    (.ok (), { r with offset := r.offset + count })

/-- Method `seek(offset)`: range check, then `self._offset = offset`. -/
def seek (r : BinaryReader) (target : Int) :
    Except PyError Unit × BinaryReader :=
  if target < 0 ∨ target > (r.data.length : Int) then
    (.error (.invalidSeekOffset target r.data.length), r)
  else
    (.ok (), { r with offset := target })

/-- Method `peek(size)`: bounds check, then return the slice without mutating. -/
def peek (r : BinaryReader) (size : Int) :
    Except PyError (List Nat) × BinaryReader :=
  if ¬ r.has_bytes size then
    (.error (.cannotPeek size r.offset r.data.length), r)
  else
    (.ok (pySlice r.data r.offset (r.offset + size)), r)

end BinaryReader

/-- One mutating call on a reader, for reasoning about call sequences. -/
inductive Op where
  | read (data_type : DataType) (size : Int)
  | skip (count : Int)
  | seek (target : Int)
deriving DecidableEq, Repr

/-- The state of the reader after a call (the Python object survives a
raised exception, so the post-state is taken in either case). -/
def applyOp (r : BinaryReader) (op : Op) : BinaryReader :=
  match op with
  | .read t s => (r.read t s).2
  | .skip c => (r.skip c).2
  | .seek t => (r.seek t).2

/-- The reader state after a sequence of calls. -/
def runOps (r : BinaryReader) (ops : List Op) : BinaryReader :=
  ops.foldl applyOp r

/-- Holds (returns `true`) unless the operation is a `skip` with negative count. -/
def nonNegSkip : Op → Bool
  | .skip c => 0 ≤ c
  | _ => true

/-- Specification-level big-endian value of a byte sequence:
most-significant byte first. -/
def beValSpec : List Nat → Nat
  | [] => 0
  | b :: bs => b * 256 ^ bs.length + beValSpec bs

/-- Specification-level little-endian value of a byte sequence:
least-significant byte first. -/
def leValSpec : List Nat → Nat
  | [] => 0
  | b :: bs => b + 256 * leValSpec bs

/-- Specification-level two's complement reinterpretation of an unsigned
value over the full bit width `8 * k`. -/
def twosComplement (k : Nat) (u : Nat) : Int :=
  if 2 ^ (8 * k - 1) ≤ u then (u : Int) - 2 ^ (8 * k) else (u : Int)

/-- Big-endian re-encoding of a value as `k` bytes (`int.to_bytes`-style),
most-significant byte first. -/
def toBytesBE : Nat → Nat → List Nat
  | 0, _ => []
  | k + 1, v => toBytesBE k (v / 256) ++ [v % 256]

/-- Returns `true` iff the call returned normally instead of raising. -/
def callOk {α : Type} : Except PyError α → Bool
  | .ok _ => true
  | .error _ => false

theorem foldl_beVal (l : List Nat) (a : Nat) :
    l.foldl (fun acc b => acc * 256 + b) a = a * 256 ^ l.length + beValSpec l := by
  induction l generalizing a with
  | nil => simp [beValSpec]
  | cons b bs ih =>
    simp only [List.foldl_cons, beValSpec, ih, List.length_cons]
    ring

theorem beValSpec_append (xs : List Nat) (b : Nat) :
    beValSpec (xs ++ [b]) = beValSpec xs * 256 + b := by
  induction xs with
  | nil => simp [beValSpec]
  | cons a t ih =>
    show beValSpec (a :: (t ++ [b])) = beValSpec (a :: t) * 256 + b
    rw [beValSpec, beValSpec, ih]
    have hlen : (t ++ [b]).length = t.length + 1 := by simp
    rw [hlen]
    ring

theorem beValSpec_reverse (l : List Nat) : beValSpec l.reverse = leValSpec l := by
  induction l with
  | nil => rfl
  | cons b bs ih =>
    simp only [List.reverse_cons, beValSpec_append, leValSpec, ih]
    ring

theorem fromBytesUnsigned_BIG (l : List Nat) :
    fromBytesUnsigned .BIG l = beValSpec l := by
  simpa using foldl_beVal l 0

theorem fromBytesUnsigned_LITTLE (l : List Nat) :
    fromBytesUnsigned .LITTLE l = leValSpec l := by
  show l.reverse.foldl (fun acc b => acc * 256 + b) 0 = leValSpec l
  rw [foldl_beVal, beValSpec_reverse]
  simp

theorem beValSpec_lt (l : List Nat) (h : ∀ b ∈ l, b < 256) :
    beValSpec l < 256 ^ l.length := by
  induction l with
  | nil => simp [beValSpec]
  | cons b bs ih =>
    have hb : b < 256 := h b (by simp)
    have h2 : beValSpec bs < 256 ^ bs.length := ih (fun x hx => h x (by simp [hx]))
    simp only [beValSpec, List.length_cons, pow_succ]
    calc b * 256 ^ bs.length + beValSpec bs
        < (b + 1) * 256 ^ bs.length := by
          rw [Nat.succ_mul]
          omega
      _ ≤ 256 ^ bs.length * 256 := by
          rw [Nat.mul_comm (256 ^ bs.length) 256]
          exact Nat.mul_le_mul_right _ (by omega)

theorem pow_sign_eq (n : Nat) : (2 : Nat) ^ (8 * (n + 1) - 1) = 128 * 256 ^ n := by
  have h : 8 * (n + 1) - 1 = 7 + 8 * n := by omega
  rw [h, pow_add, pow_mul]
  norm_num

theorem signBit_iff (b : Nat) (bs : List Nat) (hb : b < 256)
    (hbs : ∀ x ∈ bs, x < 256) :
    128 ≤ b ↔ 2 ^ (8 * (bs.length + 1) - 1) ≤ beValSpec (b :: bs) := by
  have h2 : beValSpec bs < 256 ^ bs.length := beValSpec_lt bs hbs
  rw [pow_sign_eq]
  show 128 ≤ b ↔ 128 * 256 ^ bs.length ≤ b * 256 ^ bs.length + beValSpec bs
  constructor
  · intro h
    calc 128 * 256 ^ bs.length ≤ b * 256 ^ bs.length := Nat.mul_le_mul_right _ h
      _ ≤ b * 256 ^ bs.length + beValSpec bs := Nat.le_add_right _ _
  · intro h
    by_contra hlt
    push_neg at hlt
    have hble : b + 1 ≤ 128 := hlt
    have : b * 256 ^ bs.length + beValSpec bs < 128 * 256 ^ bs.length := by
      calc b * 256 ^ bs.length + beValSpec bs
          < b * 256 ^ bs.length + 256 ^ bs.length := by omega
        _ = (b + 1) * 256 ^ bs.length := by ring
        _ ≤ 128 * 256 ^ bs.length := Nat.mul_le_mul_right _ hble
    omega

theorem fromBytesSigned_BIG_eq (l : List Nat) (h : ∀ b ∈ l, b < 256) :
    fromBytesSigned .BIG l = twosComplement l.length (fromBytesUnsigned .BIG l) := by
  cases l with
  | nil => rfl
  | cons b bs =>
    have hb : b < 256 := h b (by simp)
    have hbs : ∀ x ∈ bs, x < 256 := fun x hx => h x (by simp [hx])
    have hiff := signBit_iff b bs hb hbs
    rw [fromBytesSigned, twosComplement, fromBytesUnsigned_BIG]
    by_cases hsb : 128 ≤ signByte .BIG (b :: bs)
    · have hc : 2 ^ (8 * (b :: bs).length - 1) ≤ beValSpec (b :: bs) := by
        simpa [List.length_cons] using hiff.mp (by simpa [signByte] using hsb)
      rw [if_pos hsb, if_pos hc]
    · have hc : ¬ 2 ^ (8 * (b :: bs).length - 1) ≤ beValSpec (b :: bs) := by
        intro hcon
        exact hsb (by simpa [signByte] using hiff.mpr (by simpa [List.length_cons] using hcon))
      rw [if_neg hsb, if_neg hc]

theorem fromBytesSigned_LITTLE_reverse (l : List Nat) :
    fromBytesSigned .LITTLE l = fromBytesSigned .BIG l.reverse := by
  have hsb : signByte .LITTLE l = signByte .BIG l.reverse := by
    simp [signByte, List.getLastD_eq_getLast?, List.headD_eq_head?, List.head?_reverse]
  have hu : fromBytesUnsigned .LITTLE l = fromBytesUnsigned .BIG l.reverse := by
    rw [fromBytesUnsigned_LITTLE, fromBytesUnsigned_BIG, beValSpec_reverse]
  unfold fromBytesSigned
  rw [hsb, hu, List.length_reverse]

theorem fromBytesSigned_eq (e : Endianness) (l : List Nat)
    (h : ∀ b ∈ l, b < 256) :
    fromBytesSigned e l = twosComplement l.length (fromBytesUnsigned e l) := by
  cases e with
  | BIG => exact fromBytesSigned_BIG_eq l h
  | LITTLE =>
    have hrev : ∀ x ∈ l.reverse, x < 256 := fun x hx => h x (List.mem_reverse.mp hx)
    have hu : fromBytesUnsigned .LITTLE l = fromBytesUnsigned .BIG l.reverse := by
      rw [fromBytesUnsigned_LITTLE, fromBytesUnsigned_BIG, beValSpec_reverse]
    rw [fromBytesSigned_LITTLE_reverse, fromBytesSigned_BIG_eq l.reverse hrev,
      List.length_reverse, hu]

theorem pySlice_eq_drop_take (l : List Nat) (a s : Int) (h0 : 0 ≤ a)
    (hs : 0 ≤ s) (hb : a + s ≤ (l.length : Int)) :
    pySlice l a (a + s) = (l.drop a.toNat).take s.toNat := by
  unfold pySlice pySliceIdx
  rw [if_neg (show ¬ a + s < 0 by omega), if_neg (show ¬ a < 0 by omega)]
  have h1 : min a (l.length : Int) = a := min_eq_left (by omega)
  have h2 : min (a + s) (l.length : Int) = a + s := min_eq_left hb
  rw [h1, h2]
  have h3 : (a + s).toNat = a.toNat + s.toNat := by omega
  rw [h3, ← List.take_drop]

theorem pySlice_length (l : List Nat) (a s : Int) (h0 : 0 ≤ a)
    (hs : 0 ≤ s) (hb : a + s ≤ (l.length : Int)) :
    (pySlice l a (a + s)).length = s.toNat := by
  rw [pySlice_eq_drop_take l a s h0 hs hb, List.length_take, List.length_drop]
  omega

theorem toBytesBE_beValSpec (l : List Nat) (h : ∀ b ∈ l, b < 256) :
    toBytesBE l.length (beValSpec l) = l := by
  induction l using List.reverseRecOn with
  | nil => rfl
  | append_singleton xs b ih =>
    have hb : b < 256 := h b (by simp)
    have hxs : ∀ x ∈ xs, x < 256 := fun x hx => h x (by simp [hx])
    have hlen : (xs ++ [b]).length = xs.length + 1 := by simp
    rw [hlen, beValSpec_append]
    show toBytesBE (xs.length + 1) (beValSpec xs * 256 + b) = xs ++ [b]
    rw [toBytesBE]
    have h1 : (beValSpec xs * 256 + b) / 256 = beValSpec xs := by omega
    have h2 : (beValSpec xs * 256 + b) % 256 = b := by omega
    rw [h1, h2, ih hxs]

theorem has_bytes_iff (r : BinaryReader) (count : Int) :
    r.has_bytes count = true ↔ r.offset + count ≤ (r.data.length : Int) := by
  simp [BinaryReader.has_bytes]

theorem read_UINT_eq (r : BinaryReader) (size : Int)
    (hs : 0 < size) (hb : r.has_bytes size = true) :
    r.read .UINT size =
      (.ok (.int (fromBytesUnsigned r.endianness
          (pySlice r.data r.offset (r.offset + size)))),
        { r with offset := r.offset + size }) := by
  unfold BinaryReader.read
  rw [if_neg (by omega), if_neg (not_not_intro hb)]

theorem read_INT_eq (r : BinaryReader) (size : Int)
    (hs : 0 < size) (hb : r.has_bytes size = true) :
    r.read .INT size =
      (.ok (.int (fromBytesSigned r.endianness
          (pySlice r.data r.offset (r.offset + size)))),
        { r with offset := r.offset + size }) := by
  unfold BinaryReader.read
  rw [if_neg (by omega), if_neg (not_not_intro hb)]

theorem read_BYTES_eq (r : BinaryReader) (size : Int)
    (hs : 0 < size) (hb : r.has_bytes size = true) :
    r.read .BYTES size =
      (.ok (.bytes (pySlice r.data r.offset (r.offset + size))),
        { r with offset := r.offset + size }) := by
  unfold BinaryReader.read
  rw [if_neg (by omega), if_neg (not_not_intro hb)]

/-- C4: with `size` bytes remaining and `size > 0`, `read(UnsignedInt, size)`
succeeds, returns the `size` consumed bytes interpreted as an unsigned
integer in the reader's configured byte order (most-significant byte first
for BIG, least-significant first for LITTLE), and advances the offset by
`size`; in particular on buffer `[0x00, 0x01, 0x02, 0x03]` big-endian two
successive `read(UnsignedInt, 2)` calls return 1 then 515 leaving nothing
remaining, and on buffer `[0x01, 0x02]` little-endian `read(UnsignedInt, 2)`
returns 513. -/
theorem C4_read_uint (r : BinaryReader) (size : Int) (h0 : 0 ≤ r.offset)
    (hs : 0 < size) (hb : r.has_bytes size = true) :
    ((r.read .UINT size).1 =
        .ok (.int (if r.endianness = .BIG
          then (beValSpec ((r.data.drop r.offset.toNat).take size.toNat) : Int)
          else (leValSpec ((r.data.drop r.offset.toNat).take size.toNat) : Int))) ∧
      (r.read .UINT size).2.offset = r.offset + size) ∧
    (((BinaryReader.new [0, 1, 2, 3] .BIG).read .UINT 2).1 = .ok (.int 1) ∧
      ((BinaryReader.new [0, 1, 2, 3] .BIG).read .UINT 2).2.offset = 2 ∧
      (((BinaryReader.new [0, 1, 2, 3] .BIG).read .UINT 2).2.read .UINT 2).1
        = .ok (.int 515) ∧
      (((BinaryReader.new [0, 1, 2, 3] .BIG).read .UINT 2).2.read .UINT 2).2.offset = 4 ∧
      (((BinaryReader.new [0, 1, 2, 3] .BIG).read .UINT 2).2.read .UINT 2).2.remaining = 0 ∧
      ((BinaryReader.new [1, 2] .LITTLE).read .UINT 2).1 = .ok (.int 513)) := by
  refine ⟨⟨?_, ?_⟩, by decide, by decide, by decide, by decide, by decide, by decide⟩
  · have hb' : r.offset + size ≤ (r.data.length : Int) := (has_bytes_iff r size).mp hb
    have hslice := pySlice_eq_drop_take r.data r.offset size h0 (le_of_lt hs) hb'
    rw [read_UINT_eq r size hs hb]
    rw [show (Except.ok (Value.int (fromBytesUnsigned r.endianness
        (pySlice r.data r.offset (r.offset + size)))),
          { r with offset := r.offset + size }).1
        = Except.ok (α := Value) (Value.int (fromBytesUnsigned r.endianness
            (pySlice r.data r.offset (r.offset + size)))) from rfl]
    rw [hslice]
    cases he : r.endianness with
    | BIG => simp [fromBytesUnsigned_BIG]
    | LITTLE => simp [fromBytesUnsigned_LITTLE]
  · rw [read_UINT_eq r size hs hb]

/-- Witness for C4 at a concrete input: the little-endian scenario-C reader. -/
theorem C4_read_uint_witness :
    (0 : Int) ≤ (BinaryReader.new [1, 2] .LITTLE).offset ∧
    (0 : Int) < 2 ∧ (BinaryReader.new [1, 2] .LITTLE).has_bytes 2 = true ∧
    ((BinaryReader.new [1, 2] .LITTLE).read .UINT 2).2.offset
      = (BinaryReader.new [1, 2] .LITTLE).offset + 2 :=
  ⟨by decide, by decide, by decide,
    (C4_read_uint (BinaryReader.new [1, 2] .LITTLE) 2
      (by decide) (by decide) (by decide)).1.2⟩

/-- C5: with `size` bytes remaining and `size > 0`, `read(SignedInt, size)`
returns the value obtained by decoding the same `size` bytes as an unsigned
integer under the reader's byte order and then reinterpreting that bit
pattern via two's complement over the full bit width `8 * size`; in
particular on buffer `[0xFF]` big-endian `read(SignedInt, 1)` returns -1. -/
theorem C5_read_sint (r : BinaryReader) (size : Int)
    (h256 : ∀ b ∈ r.data, b < 256) (h0 : 0 ≤ r.offset)
    (hs : 0 < size) (hb : r.has_bytes size = true) :
    ((r.read .INT size).1 =
        .ok (.int (twosComplement size.toNat
          (if r.endianness = .BIG
            then beValSpec ((r.data.drop r.offset.toNat).take size.toNat)
            else leValSpec ((r.data.drop r.offset.toNat).take size.toNat)))) ∧
      (r.read .INT size).2.offset = r.offset + size) ∧
    ((BinaryReader.new [255] .BIG).read .INT 1).1 = .ok (.int (-1)) := by
  refine ⟨⟨?_, ?_⟩, by decide⟩
  · have hb' : r.offset + size ≤ (r.data.length : Int) := (has_bytes_iff r size).mp hb
    have hslice := pySlice_eq_drop_take r.data r.offset size h0 (le_of_lt hs) hb'
    have hslen : (pySlice r.data r.offset (r.offset + size)).length = size.toNat :=
      pySlice_length r.data r.offset size h0 (le_of_lt hs) hb'
    have hsub : ∀ b ∈ pySlice r.data r.offset (r.offset + size), b < 256 := by
      intro b hbmem
      apply h256
      rw [hslice] at hbmem
      exact List.drop_subset _ _ (List.take_subset _ _ hbmem)
    rw [read_INT_eq r size hs hb]
    rw [show (Except.ok (Value.int (fromBytesSigned r.endianness
        (pySlice r.data r.offset (r.offset + size)))),
          { r with offset := r.offset + size }).1
        = Except.ok (α := Value) (Value.int (fromBytesSigned r.endianness
            (pySlice r.data r.offset (r.offset + size)))) from rfl]
    rw [fromBytesSigned_eq r.endianness _ hsub, hslen, hslice]
    cases he : r.endianness with
    | BIG => simp [fromBytesUnsigned_BIG]
    | LITTLE => simp [fromBytesUnsigned_LITTLE]
  · rw [read_INT_eq r size hs hb]

/-- Witness for C5 at a concrete input: the scenario-B reader `[0xFF]`. -/
theorem C5_read_sint_witness :
    (∀ b ∈ (BinaryReader.new [255] .BIG).data, b < 256) ∧
    (0 : Int) ≤ (BinaryReader.new [255] .BIG).offset ∧
    (0 : Int) < 1 ∧ (BinaryReader.new [255] .BIG).has_bytes 1 = true ∧
    ((BinaryReader.new [255] .BIG).read .INT 1).2.offset
      = (BinaryReader.new [255] .BIG).offset + 1 :=
  ⟨by decide, by decide, by decide, by decide,
    (C5_read_sint (BinaryReader.new [255] .BIG) 1
      (by decide) (by decide) (by decide) (by decide)).1.2⟩

/-- C6: for a nonempty `k`-byte buffer and a big-endian reader at offset 0,
`read(UnsignedInt, k)` followed by re-encoding the returned value as `k`
big-endian bytes reproduces the original buffer exactly, for every `k ≥ 1`
(hence in particular for `k` in 1, 2, 4, 8). -/
theorem C6_roundtrip (data : List Nat) (h1 : 0 < data.length)
    (h2 : ∀ b ∈ data, b < 256) :
    ((BinaryReader.new data .BIG).read .UINT (data.length : Int)).1 =
      .ok (.int (beValSpec data)) ∧
    toBytesBE data.length (beValSpec data) = data := by
  constructor
  · have hs : (0 : Int) < (data.length : Int) := by exact_mod_cast h1
    have hb : (BinaryReader.new data .BIG).has_bytes (data.length : Int) = true := by
      rw [has_bytes_iff]
      show (0 : Int) + (data.length : Int) ≤ (data.length : Int)
      omega
    rw [read_UINT_eq (BinaryReader.new data .BIG) (data.length : Int) hs hb]
    have hslice : pySlice data 0 (0 + (data.length : Int)) = data := by
      rw [pySlice_eq_drop_take data 0 (data.length : Int) le_rfl (by omega) (by omega)]
      simp
    show Except.ok (Value.int (fromBytesUnsigned Endianness.BIG
        (pySlice data 0 (0 + (data.length : Int)))))
      = Except.ok (α := Value) (Value.int (beValSpec data))
    rw [hslice, fromBytesUnsigned_BIG]
  · exact toBytesBE_beValSpec data h2

/-- Witness for C6 at a concrete input: the 2-byte buffer `[0x01, 0x02]`. -/
theorem C6_roundtrip_witness :
    0 < ([1, 2] : List Nat).length ∧ (∀ b ∈ ([1, 2] : List Nat), b < 256) ∧
    (((BinaryReader.new [1, 2] .BIG).read .UINT (([1, 2] : List Nat).length : Int)).1 =
        .ok (.int (beValSpec [1, 2])) ∧
      toBytesBE ([1, 2] : List Nat).length (beValSpec [1, 2]) = [1, 2]) :=
  ⟨by decide, by decide, C6_roundtrip [1, 2] (by decide) (by decide)⟩

/-- C7: with at least `n > 0` bytes available, `peek(n)` leaves the reader
state unchanged and returns exactly the byte sequence that an immediately
following `read(RawBytes, n)` returns, and that read advances the offset by
exactly `n`. -/
theorem C7_peek_read (r : BinaryReader) (n : Int) (hn : 0 < n)
    (hb : r.has_bytes n = true) :
    (r.peek n).2 = r ∧
    ∃ bs, (r.peek n).1 = .ok bs ∧
      (r.read .BYTES n).1 = .ok (.bytes bs) ∧
      (r.read .BYTES n).2.offset = r.offset + n := by
  refine ⟨?_, pySlice r.data r.offset (r.offset + n), ?_, ?_, ?_⟩
  · unfold BinaryReader.peek
    rw [if_neg (not_not_intro hb)]
  · unfold BinaryReader.peek
    rw [if_neg (not_not_intro hb)]
  · rw [read_BYTES_eq r n hn hb]
  · rw [read_BYTES_eq r n hn hb]

/-- Witness for C7 at a concrete input. -/
theorem C7_peek_read_witness :
    (0 : Int) < 2 ∧ (BinaryReader.new [9, 8, 7] .BIG).has_bytes 2 = true ∧
    ((BinaryReader.new [9, 8, 7] .BIG).peek 2).2 = BinaryReader.new [9, 8, 7] .BIG :=
  ⟨by decide, by decide,
    (C7_peek_read (BinaryReader.new [9, 8, 7] .BIG) 2 (by decide) (by decide)).1⟩

/-- C8: `seek(target)` succeeds and sets the offset to exactly `target` when
`0 ≤ target ≤ length(buffer)`, and otherwise fails with the invalid-offset
error leaving the offset unchanged; in particular `seek(-1)` always fails
and `seek(size())` always succeeds making `remaining()` 0. -/
theorem C8_seek (r : BinaryReader) (target : Int) :
    (if 0 ≤ target ∧ target ≤ (r.data.length : Int) then
        (r.seek target).1 = .ok () ∧ (r.seek target).2.offset = target
      else
        (r.seek target).1 = .error (.invalidSeekOffset target r.data.length) ∧
        (r.seek target).2.offset = r.offset) ∧
    (r.seek (-1)).1 = .error (.invalidSeekOffset (-1) r.data.length) ∧
    (r.seek (r.size : Int)).1 = .ok () ∧
    (r.seek (r.size : Int)).2.remaining = 0 := by
  have hsize : (r.size : Int) = (r.data.length : Int) := rfl
  refine ⟨?_, ?_, ?_, ?_⟩
  · by_cases h : 0 ≤ target ∧ target ≤ (r.data.length : Int)
    · rw [if_pos h]
      unfold BinaryReader.seek
      rw [if_neg (by omega)]
      exact ⟨rfl, rfl⟩
    · rw [if_neg h]
      unfold BinaryReader.seek
      rw [if_pos (by omega)]
      exact ⟨rfl, rfl⟩
  · unfold BinaryReader.seek
    rw [if_pos (Or.inl (by norm_num))]
  · unfold BinaryReader.seek
    rw [if_neg (by rw [hsize]; omega)]
  · unfold BinaryReader.seek
    rw [if_neg (by rw [hsize]; omega)]
    show (r.data.length : Int) - (r.size : Int) = 0
    rw [hsize]
    omega

/-- C9: with at least 1 byte remaining (and the offset inside the buffer as
the data model requires), `read(Bool, 1)` succeeds, returns `false` exactly
when the consumed byte is `0x00` and `true` for any other byte value, and
advances the offset by 1. -/
theorem C9_read_bool (r : BinaryReader) (h0 : 0 ≤ r.offset)
    (h1 : (1 : Int) ≤ r.remaining) :
    (r.read .BOOL 1).1 = .ok (.bool (r.data.getD r.offset.toNat 0 != 0)) ∧
    (r.read .BOOL 1).2.offset = r.offset + 1 := by
  have hrem : (r.data.length : Int) - r.offset ≥ 1 := h1
  have hb : r.has_bytes 1 = true := by rw [has_bytes_iff]; omega
  have hlt : r.offset.toNat < r.data.length := by omega
  have hslice : pySlice r.data r.offset (r.offset + 1)
      = r.data.getD r.offset.toNat 0 :: [] := by
    rw [pySlice_eq_drop_take r.data r.offset 1 h0 (by norm_num) (by omega)]
    rw [List.drop_eq_getElem_cons hlt]
    show r.data[r.offset.toNat] :: [] = [r.data.getD r.offset.toNat 0]
    rw [List.getD_eq_getElem?_getD, List.getElem?_eq_getElem hlt, Option.getD_some]
  have hread : r.read .BOOL 1
      = (.ok (.bool (r.data.getD r.offset.toNat 0 != 0)),
          { r with offset := r.offset + 1 }) := by
    unfold BinaryReader.read
    rw [if_neg (show ¬ (1 : Int) ≤ 0 by norm_num), if_neg (not_not_intro hb)]
    simp only [hslice]
    rw [if_neg (show ¬ ((1 : Int) ≠ 1) from fun h => h rfl)]
  rw [hread]
  exact ⟨rfl, rfl⟩

/-- Witness for C9 at a concrete input: scenario F on byte `0x7F`. -/
theorem C9_read_bool_witness :
    (0 : Int) ≤ (BinaryReader.new [127] .BIG).offset ∧
    (1 : Int) ≤ (BinaryReader.new [127] .BIG).remaining ∧
    ((BinaryReader.new [127] .BIG).read .BOOL 1).1 = .ok (.bool true) :=
  ⟨by decide, by decide, by
    have h := (C9_read_bool (BinaryReader.new [127] .BIG) (by decide) (by decide)).1
    simpa using h⟩

/-- C10: from any state with `0 ≤ offset ≤ length(buffer)` and any negative
count `n`, `has_bytes(n)` returns `true` and `skip(n)` succeeds, setting the
offset to `offset + n` — moving the cursor backwards, and making the offset
negative whenever `n < -offset`. -/
theorem C10_negative_skip (r : BinaryReader) (n : Int) (h0 : 0 ≤ r.offset)
    (h1 : r.offset ≤ (r.data.length : Int)) (hn : n < 0) :
    r.has_bytes n = true ∧
    (r.skip n).1 = .ok () ∧
    (r.skip n).2.offset = r.offset + n ∧
    (n < -r.offset → (r.skip n).2.offset < 0) := by
  have hb : r.has_bytes n = true := by rw [has_bytes_iff]; omega
  have hsk : r.skip n = (.ok (), { r with offset := r.offset + n }) := by
    unfold BinaryReader.skip
    rw [if_neg (not_not_intro hb)]
  refine ⟨hb, ?_, ?_, ?_⟩
  · rw [hsk]
  · rw [hsk]
  · intro hlt
    rw [hsk]
    show r.offset + n < 0
    omega

/-- Witness for C10 at a concrete input: `skip(-1)` on a fresh 2-byte reader. -/
theorem C10_negative_skip_witness :
    (0 : Int) ≤ (BinaryReader.new [4, 5] .BIG).offset ∧
    (BinaryReader.new [4, 5] .BIG).offset ≤ (([4, 5] : List Nat).length : Int) ∧
    (-1 : Int) < 0 ∧
    (BinaryReader.new [4, 5] .BIG).has_bytes (-1) = true :=
  ⟨by decide, by decide, by decide,
    (C10_negative_skip (BinaryReader.new [4, 5] .BIG) (-1)
      (by decide) (by decide) (by decide)).1⟩

theorem read_snd_eq (r : BinaryReader) (t : DataType) (size : Int) :
    (r.read t size).2 =
      (if 0 < size ∧ r.has_bytes size = true
        then { r with offset := r.offset + size } else r) := by
  unfold BinaryReader.read
  by_cases h1 : size ≤ 0
  · rw [if_pos h1, if_neg (show ¬ (0 < size ∧ r.has_bytes size = true) from
      fun hc => absurd hc.1 (by omega))]
  · by_cases h2 : r.has_bytes size = true
    · rw [if_neg h1, if_neg (not_not_intro h2), if_pos ⟨by omega, h2⟩]
      cases t with
      | BYTES => rfl
      | UINT => rfl
      | INT => rfl
      | BOOL =>
        dsimp only
        split
        · rfl
        · split <;> rfl
    · rw [if_neg h1, if_pos h2, if_neg (fun hc => h2 hc.2)]

theorem skip_snd_eq (r : BinaryReader) (count : Int) :
    (r.skip count).2 =
      (if r.has_bytes count = true
        then { r with offset := r.offset + count } else r) := by
  unfold BinaryReader.skip
  by_cases h : r.has_bytes count = true
  · rw [if_neg (not_not_intro h), if_pos h]
  · rw [if_pos h, if_neg h]

theorem seek_snd_eq (r : BinaryReader) (target : Int) :
    (r.seek target).2 =
      (if target < 0 ∨ target > (r.data.length : Int)
        then r else { r with offset := target }) := by
  unfold BinaryReader.seek
  by_cases h : target < 0 ∨ target > (r.data.length : Int)
  · rw [if_pos h, if_pos h]
  · rw [if_neg h, if_neg h]

theorem applyOp_preserves (r : BinaryReader) (op : Op)
    (hc : nonNegSkip op = true)
    (h0 : 0 ≤ r.offset) (h1 : r.offset ≤ (r.data.length : Int)) :
    (applyOp r op).data = r.data ∧ 0 ≤ (applyOp r op).offset ∧
    (applyOp r op).offset ≤ (r.data.length : Int) := by
  cases op with
  | read t s =>
    show (r.read t s).2.data = r.data ∧ 0 ≤ (r.read t s).2.offset ∧
      (r.read t s).2.offset ≤ (r.data.length : Int)
    rw [read_snd_eq]
    by_cases h : 0 < s ∧ r.has_bytes s = true
    · have hb := (has_bytes_iff r s).mp h.2
      have hs := h.1
      rw [if_pos h]
      refine ⟨rfl, ?_, ?_⟩
      · show (0 : Int) ≤ r.offset + s
        omega
      · show r.offset + s ≤ (r.data.length : Int)
        omega
    · rw [if_neg h]
      exact ⟨rfl, h0, h1⟩
  | skip c =>
    have hcn : (0 : Int) ≤ c := by
      have : decide ((0 : Int) ≤ c) = true := hc
      simpa using this
    show (r.skip c).2.data = r.data ∧ 0 ≤ (r.skip c).2.offset ∧
      (r.skip c).2.offset ≤ (r.data.length : Int)
    rw [skip_snd_eq]
    by_cases h : r.has_bytes c = true
    · have hb := (has_bytes_iff r c).mp h
      rw [if_pos h]
      refine ⟨rfl, ?_, ?_⟩
      · show (0 : Int) ≤ r.offset + c
        omega
      · show r.offset + c ≤ (r.data.length : Int)
        omega
    · rw [if_neg h]
      exact ⟨rfl, h0, h1⟩
  | seek t =>
    show (r.seek t).2.data = r.data ∧ 0 ≤ (r.seek t).2.offset ∧
      (r.seek t).2.offset ≤ (r.data.length : Int)
    rw [seek_snd_eq]
    by_cases h : t < 0 ∨ t > (r.data.length : Int)
    · rw [if_pos h]
      exact ⟨rfl, h0, h1⟩
    · rw [if_neg h]
      refine ⟨rfl, ?_, ?_⟩
      · show (0 : Int) ≤ t
        omega
      · show t ≤ (r.data.length : Int)
        omega

theorem runOps_invariant (r : BinaryReader) (ops : List Op)
    (hc : ∀ op ∈ ops, nonNegSkip op = true)
    (h0 : 0 ≤ r.offset) (h1 : r.offset ≤ (r.data.length : Int)) :
    (runOps r ops).data = r.data ∧ 0 ≤ (runOps r ops).offset ∧
    (runOps r ops).offset ≤ (r.data.length : Int) := by
  induction ops generalizing r with
  | nil => exact ⟨rfl, h0, h1⟩
  | cons op rest ih =>
    have hop := applyOp_preserves r op (hc op (by simp)) h0 h1
    have hrest := ih (applyOp r op) (fun o ho => hc o (by simp [ho]))
      hop.2.1 (by rw [hop.1]; exact hop.2.2)
    refine ⟨?_, ?_, ?_⟩
    · show (runOps (applyOp r op) rest).data = r.data
      rw [hrest.1, hop.1]
    · exact hrest.2.1
    · show (runOps (applyOp r op) rest).offset ≤ (r.data.length : Int)
      have h := hrest.2.2
      rwa [hop.1] at h

/-- C1 as stated is false: `read(Bool, 2)` on the 2-byte buffer
`[0x00, 0x00]` fails (with the bool-size error), yet the offset after the
call is 2, not the 0 it was before the call. -/
theorem C1_counterexample :
    ((BinaryReader.new [0, 0] .BIG).read .BOOL 2).1
      = .error (.boolMustBe1Byte 2) ∧
    (BinaryReader.new [0, 0] .BIG).offset = 0 ∧
    ((BinaryReader.new [0, 0] .BIG).read .BOOL 2).2.offset = 2 := by decide

/-- C1 amended: every failing `skip` or `seek` leaves the offset unchanged,
and so does every failing `read`, except a `Bool` read that has already
passed the positivity and bounds checks (because `size ≠ 1`, or because the
sliced view is empty at a negative offset): such a read raises only after
the offset has been advanced by `size`. -/
theorem C1_failing_offset (r : BinaryReader) (t : DataType)
    (size count target : Int)
    (h1 : callOk (r.read t size).1 = false)
    (h2 : callOk (r.skip count).1 = false)
    (h3 : callOk (r.seek target).1 = false) :
    (r.skip count).2.offset = r.offset ∧
    (r.seek target).2.offset = r.offset ∧
    (r.read t size).2.offset =
      (if 0 < size ∧ r.has_bytes size = true ∧ t = DataType.BOOL
        then r.offset + size else r.offset) := by
  refine ⟨?_, ?_, ?_⟩
  · by_cases hb : r.has_bytes count = true
    · exfalso
      unfold BinaryReader.skip at h2
      rw [if_neg (not_not_intro hb)] at h2
      simp [callOk] at h2
    · rw [skip_snd_eq, if_neg hb]
  · by_cases hs : target < 0 ∨ target > (r.data.length : Int)
    · rw [seek_snd_eq, if_pos hs]
    · exfalso
      unfold BinaryReader.seek at h3
      rw [if_neg hs] at h3
      simp [callOk] at h3
  · rw [read_snd_eq]
    by_cases hp : 0 < size ∧ r.has_bytes size = true
    · cases t with
      | BOOL =>
        rw [if_pos hp, if_pos ⟨hp.1, hp.2, rfl⟩]
      | BYTES =>
        exfalso
        unfold BinaryReader.read at h1
        rw [if_neg (by omega), if_neg (not_not_intro hp.2)] at h1
        simp [callOk] at h1
      | UINT =>
        exfalso
        unfold BinaryReader.read at h1
        rw [if_neg (by omega), if_neg (not_not_intro hp.2)] at h1
        simp [callOk] at h1
      | INT =>
        exfalso
        unfold BinaryReader.read at h1
        rw [if_neg (by omega), if_neg (not_not_intro hp.2)] at h1
        simp [callOk] at h1
    · rw [if_neg hp, if_neg (fun hc => hp ⟨hc.1, hc.2.1⟩)]

/-- Witness for the amended C1 at concrete inputs: a failing bool read, a
failing skip and a failing seek on the buffer `[0x00, 0x00]`. -/
theorem C1_failing_offset_witness :
    callOk ((BinaryReader.new [0, 0] .BIG).read .BOOL 2).1 = false ∧
    callOk ((BinaryReader.new [0, 0] .BIG).skip 5).1 = false ∧
    callOk ((BinaryReader.new [0, 0] .BIG).seek (-1)).1 = false ∧
    ((BinaryReader.new [0, 0] .BIG).skip 5).2.offset
      = (BinaryReader.new [0, 0] .BIG).offset :=
  ⟨by decide, by decide, by decide,
    (C1_failing_offset (BinaryReader.new [0, 0] .BIG) .BOOL 2 5 (-1)
      (by decide) (by decide) (by decide)).1⟩

/-- C2 as stated is false: from a freshly constructed reader on the empty
buffer, the single call `skip(-1)` succeeds and leaves the offset at -1,
violating `0 ≤ offset`. -/
theorem C2_counterexample :
    ((BinaryReader.new [] .BIG).skip (-1)).1 = .ok () ∧
    (runOps (BinaryReader.new [] .BIG) [Op.skip (-1)]).offset = -1 ∧
    ¬ (0 : Int) ≤ (runOps (BinaryReader.new [] .BIG) [Op.skip (-1)]).offset := by
  decide

/-- C2 amended: for every sequence of operations from a freshly constructed
reader in which every `skip` has a nonnegative count, the invariant
`0 ≤ offset ≤ size()` holds before and after each call (i.e. after every
prefix of the sequence). -/
theorem C2_invariant (data : List Nat) (e : Endianness) (ops : List Op)
    (n : Nat) (hc : ∀ op ∈ ops, nonNegSkip op = true) :
    0 ≤ (runOps (BinaryReader.new data e) (ops.take n)).offset ∧
    (runOps (BinaryReader.new data e) (ops.take n)).offset
      ≤ (data.length : Int) := by
  have hc' : ∀ op ∈ ops.take n, nonNegSkip op = true :=
    fun op hop => hc op (List.take_subset n ops hop)
  have h := runOps_invariant (BinaryReader.new data e) (ops.take n) hc'
    (le_refl 0) (by show (0 : Int) ≤ (data.length : Int); omega)
  exact ⟨h.2.1, h.2.2⟩

/-- Witness for the amended C2 at concrete inputs: a skip and a seek on a
2-byte buffer. -/
theorem C2_invariant_witness :
    (∀ op ∈ [Op.skip 1, Op.seek 0], nonNegSkip op = true) ∧
    (0 ≤ (runOps (BinaryReader.new [5, 6] .BIG)
        ([Op.skip 1, Op.seek 0].take 2)).offset ∧
      (runOps (BinaryReader.new [5, 6] .BIG)
        ([Op.skip 1, Op.seek 0].take 2)).offset
        ≤ (([5, 6] : List Nat).length : Int)) :=
  ⟨by decide, C2_invariant [5, 6] .BIG [Op.skip 1, Op.seek 0] 2 (by decide)⟩

/-- C3 as stated is false: `read(Bool, 2)` on an empty buffer fails with the
out-of-bounds error, not the invalid-size error, because the bool size
check runs only after the bounds check. -/
theorem C3_counterexample :
    ((BinaryReader.new [] .BIG).read .BOOL 2).1
      = .error (.cannotRead 2 0 0) ∧
    ((BinaryReader.new [] .BIG).read .BOOL 2).1
      ≠ .error (.boolMustBe1Byte 2) := by decide

/-- C3 amended: the non-positive-size check does precede the bounds check,
but the `Bool` size-≠-1 check runs only after the bounds check, so
`read(Bool, size)` with `size ≠ 1` fails with the positivity error when
`size ≤ 0`, with the bool-size error when `size > 0` and `size` bytes
remain, and with the out-of-bounds error when `size > 0` and they do not. -/
theorem C3_check_order (r : BinaryReader) (size : Int) (h : size ≠ 1) :
    (r.read .BOOL size).1 =
      (if size ≤ 0 then .error (.sizeMustBePositive size)
        else if r.has_bytes size = true then .error (.boolMustBe1Byte size)
        else .error (.cannotRead size r.offset r.data.length)) := by
  unfold BinaryReader.read
  by_cases h1 : size ≤ 0
  · rw [if_pos h1, if_pos h1]
  · by_cases h2 : r.has_bytes size = true
    · rw [if_neg h1, if_neg h1, if_neg (not_not_intro h2), if_pos h2]
      simp [h]
    · rw [if_neg h1, if_neg h1, if_pos h2, if_neg h2]

/-- Witness for the amended C3 at a concrete input: `read(Bool, 2)` on a
2-byte buffer fails with the bool-size error. -/
theorem C3_check_order_witness :
    (2 : Int) ≠ 1 ∧
    ((BinaryReader.new [0, 0] .BIG).read .BOOL 2).1
      = .error (.boolMustBe1Byte 2) := by
  constructor
  · decide
  · rw [C3_check_order (BinaryReader.new [0, 0] .BIG) 2 (by decide)]
    decide

example : ((BinaryReader.new [0, 1, 2, 3] .BIG).read .UINT 2).1
    = .ok (.int 1) := by decide
example : (((BinaryReader.new [0, 1, 2, 3] .BIG).read .UINT 2).2.read .UINT 2).1
    = .ok (.int 515) := by decide
example : ((BinaryReader.new [1, 2] .LITTLE).read .UINT 2).1
    = .ok (.int 513) := by decide
example : ((BinaryReader.new [255] .BIG).read .INT 1).1
    = .ok (.int (-1)) := by decide
example : ((BinaryReader.new [0, 0] .BIG).read .BOOL 2).2.offset = 2 := by decide
example : ((BinaryReader.new [] .BIG).read .BOOL 2).1
    = .error (.cannotRead 2 0 0) := by decide
example : ((BinaryReader.new [] .BIG).skip (-1)).2.offset = -1 := by decide
example : toBytesBE 2 (beValSpec [1, 2]) = [1, 2] := by decide
